import Mathlib

/-!
Verification of the Tuify terminal music player (`src/music_tui.py`).

The development shallowly embeds the parts of the program that the
specification's claims are about:

* `AudioPlayer` (class `AudioPlayer`): process ownership, `play`, `stop`,
  `check_status` (natural-exit liveness detection), modelled as a state
  machine driven by an event trace (`PEvent`, `pstep`, `runTrace`).
* `MusicTUI` navigation state (`TUIState`): result list, cursor, mode,
  together with `perform_search`, `handle_smart_navigation`,
  `start_smart_radio`, `skip_next`, `skip_prev` and the cursor-move key
  handlers from `run`.
* The provider adapters `fetch_itunes_results` (dedup step) and
  `fetch_youtube_mix` (recommendation parsing), and the helper
  `clean_artist_name`.

External effects (network, subprocess, curses) are modelled by explicit
parameters: provider outputs are inputs of the embedded functions, and a
raised exception is modelled as `Option.none`.
-/

namespace Tuify

/-- A track as the program represents it: the dicts built by
`fetch_itunes_results` (`{'track', 'artist'}`) and `fetch_youtube_mix`
(`{'track', 'artist', 'video_id'}`).  The optional `video_id` models the
presence or absence of the `'video_id'` key. -/
structure Song where
  track : String
  artist : String
  video_id : Option String
deriving DecidableEq, Repr

/-- Status of the owned external player process, as observable through
`Popen.poll()`: still running, or exited on its own (exit not yet observed
by the program). -/
inductive ProcState where
  | running
  | exited
deriving DecidableEq, Repr

/-- The mutable state of class `AudioPlayer`: `process` (the owned handle,
`none` when cleared), `current_song`, `is_playing`, `is_paused`,
`manually_stopped`. -/
structure PlayerState where
  process : Option ProcState
  current_song : Option Song
  is_playing : Bool
  is_paused : Bool
  manually_stopped : Bool
deriving DecidableEq, Repr

/-- `AudioPlayer.__init__`: no process, nothing playing. -/
def initPlayer : PlayerState :=
  { process := none, current_song := none, is_playing := false,
    is_paused := false, manually_stopped := false }

/-- `AudioPlayer.stop`: sets `manually_stopped`, terminates and clears the
process handle, clears `current_song`, `is_playing`, `is_paused`. -/
def PlayerState.stop (_p : PlayerState) : PlayerState :=
  { process := none, current_song := none, is_playing := false,
    is_paused := false, manually_stopped := true }

/-- `AudioPlayer.play`: calls `stop()` first, then resets
`manually_stopped`, records the song and playing flags, and spawns the
player.  `spawnOk = false` models `FileNotFoundError` from `Popen` (the
handle keeps the value `None` left by `stop()` and `is_playing` is rolled
back); `immediateExit = true` models the safety check observing
`poll() is not None` right after the grace delay (handle cleared,
`is_playing` rolled back). -/
def PlayerState.play (p : PlayerState) (song : Song)
    (spawnOk immediateExit : Bool) : PlayerState :=
  let q := p.stop
  let q := { q with manually_stopped := false, current_song := some song,
                    is_playing := true, is_paused := false }
  if spawnOk then
    if immediateExit then { q with is_playing := false, process := none }
    else { q with process := some .running }
  else { q with is_playing := false }

/-- The owned process exits on its own (mpv reaches end of track or dies).
Only meaningful while a running process is owned. -/
def processExit (p : PlayerState) : PlayerState :=
  match p.process with
  | some .running => { p with process := some .exited }
  | _ => p

/-- `AudioPlayer.check_status`: if a process handle is held and `poll()`
reports an exit, roll back `is_playing`, clear the handle and return
`not manually_stopped`; in every other case return `False`.  The result is
the new state paired with the returned boolean. -/
def PlayerState.check_status (p : PlayerState) : PlayerState × Bool :=
  match p.process with
  | some .exited =>
      ({ p with is_playing := false, process := none }, !p.manually_stopped)
  | _ => (p, false)

/-- Events driving the `AudioPlayer` lifecycle: a `play` call (with the
spawn outcome), a `stop` call, a spontaneous process exit, and a liveness
poll (`check_status`, as called each tick of `run`). -/
inductive PEvent where
  | play (song : Song) (spawnOk immediateExit : Bool)
  | stop
  | exit
  | poll
deriving DecidableEq, Repr

/-- One step of the `AudioPlayer` lifecycle. -/
def pstep (p : PlayerState) : PEvent → PlayerState
  | .play s ok ie => p.play s ok ie
  | .stop => p.stop
  | .exit => processExit p
  | .poll => p.check_status.1

/-- The player state reached from program start after a sequence of
events. -/
def runTrace (es : List PEvent) : PlayerState :=
  es.foldl pstep initPlayer

/-- Whenever a process handle is held, the last lifecycle action on it was
`play` (never `stop`), so `manually_stopped` is clear. -/
def PlayerInv (p : PlayerState) : Prop :=
  p.process ≠ none → p.manually_stopped = false

/-- A concrete song used by witnesses. -/
def songA : Song := { track := "One More Time", artist := "Daft Punk", video_id := none }

/-- The two navigation modes of `MusicTUI` (`self.mode`, the strings
`"SEARCH"` and `"Radio"`). -/
inductive Mode where
  | SEARCH
  | Radio
deriving DecidableEq, Repr

/-- The navigation-relevant mutable state of class `MusicTUI`, together
with its owned `AudioPlayer`.  Curses-only fields (`stdscr`) are outside
the model. -/
structure TUIState where
  player : PlayerState
  results : List Song
  selected_index : Nat
  search_term : String
  status_message : String
  loading : Bool
  autoplay : Bool
  mode : Mode
deriving DecidableEq, Repr

/-- The separator list of `clean_artist_name`:
`["&", "feat.", "Feat.", "ft.", ",", " x "]`, as character lists. -/
def seps : List (List Char) :=
  [['&'], ['f', 'e', 'a', 't', '.'], ['F', 'e', 'a', 't', '.'],
   ['f', 't', '.'], [','], [' ', 'x', ' ']]

/-- Python's `sep in cleaned` substring test. -/
def hasSubl (sep : List Char) : List Char → Bool
  | [] => sep.isEmpty
  | c :: rest => sep.isPrefixOf (c :: rest) || hasSubl sep rest

/-- Python's `cleaned.split(sep)[0]`: the prefix of the string before the
first occurrence of `sep` (the whole string when `sep` does not occur). -/
def cutFirst (sep : List Char) : List Char → List Char
  | [] => []
  | c :: rest => if sep.isPrefixOf (c :: rest) then [] else c :: cutFirst sep rest

/-- Python's `str.strip()`: whitespace removed from both ends. -/
def trimChars (s : List Char) : List Char :=
  ((s.dropWhile Char.isWhitespace).reverse.dropWhile Char.isWhitespace).reverse

/-- The loop body of `clean_artist_name`:
`if sep in cleaned: cleaned = cleaned.split(sep)[0]`. -/
def sepStep (cleaned sep : List Char) : List Char :=
  if hasSubl sep cleaned then cutFirst sep cleaned else cleaned

/-- `MusicTUI.clean_artist_name` on character lists: for each separator in
order, if it occurs in the running string, keep only the part before its
first occurrence; finally strip whitespace. -/
def clean_artist_core (s : List Char) : List Char :=
  trimChars (seps.foldl sepStep s)

/-- `MusicTUI.clean_artist_name`. -/
def clean_artist_name (s : String) : String := ⟨clean_artist_core s.data⟩

/-- `title.lower().split('(')[0]` as used by the artist-fallback cursor
scan in `start_smart_radio` (ASCII lowering). -/
def truncTitle (s : String) : List Char :=
  (s.data.map Char.toLower).takeWhile (fun c => c ≠ '(')

/-- The `for i, s in enumerate(self.results)` scan of `start_smart_radio`:
first index whose truncated lowercased title differs from `last_clean`,
defaulting to `0` when every entry matches. -/
def scanNext (last : List Char) : Nat → List Song → Nat
  | _, [] => 0
  | i, s :: rest => if truncTitle s.track ≠ last then i else scanNext last (i + 1) rest

/-- Outputs of the external providers, passed in as parameters of the
navigation functions: `mix v` is what `fetch_youtube_mix(v)` returned
(already `[]` on error), `search q` is what `fetch_itunes_results(q)`
returned. -/
structure Providers where
  mix : String → List Song
  search : String → List Song × Option String

/-- The externally visible lookups attempted by `start_smart_radio`. -/
inductive RadioAttempt where
  | mixFetch (videoId : String)
  | artistFetch (artist : String)
deriving DecidableEq, Repr

/-- Result of `start_smart_radio`: the new controller state, the provider
lookups attempted in order, and whether `play_selection()` is chained
(`mix_found`). -/
structure RadioOutcome where
  state : TUIState
  attempts : List RadioAttempt
  plays : Bool

/-- The `if not mix_found:` artist-fallback block of `start_smart_radio`:
clean the seed's artist, search iTunes for it, and on a non-empty result
install it as the Radio list with the scanned cursor.  Returns the updated
state and the resulting `mix_found`. -/
def artist_fallback (pr : Providers) (prev_song : Song) (st : TUIState) :
    TUIState × Bool :=
  let clean_art := clean_artist_name prev_song.artist
  let st := { st with status_message := "Falling back to Artist: " ++ clean_art ++ "..." }
  let res := (pr.search clean_art).1
  if res.isEmpty then (st, false)
  else
    let st := { st with results := res, mode := .Radio,
                        search_term := "Artist: " ++ clean_art }
    let last_clean := truncTitle prev_song.track
    let next_idx := scanNext last_clean 0 st.results
    ({ st with selected_index := next_idx }, true)

/-- `MusicTUI.start_smart_radio` (the body of `_bg_smart`): try the
YouTube mix keyed on the seed's `video_id` when present; fall back to the
artist search when that is absent or empty; report failure when both
yield nothing. -/
def start_smart_radio (pr : Providers) (prev_song : Song) (st : TUIState) :
    RadioOutcome :=
  let st := { st with loading := true, status_message := "Generating Smart Radio..." }
  match prev_song.video_id with
  | some vid =>
      let st := { st with status_message := "Fetching YouTube Recommendations..." }
      let mix_results := pr.mix vid
      if mix_results.isEmpty then
        let (st2, found) := artist_fallback pr prev_song st
        if found then
          { state := { st2 with loading := false },
            attempts := [.mixFetch vid, .artistFetch (clean_artist_name prev_song.artist)],
            plays := true }
        else
          { state := { st2 with loading := false,
                                status_message := "Could not generate radio." },
            attempts := [.mixFetch vid, .artistFetch (clean_artist_name prev_song.artist)],
            plays := false }
      else
        { state := { st with results := mix_results, mode := .Radio,
                             search_term := "Smart Mix", selected_index := 0,
                             loading := false },
          attempts := [.mixFetch vid],
          plays := true }
  | none =>
      let (st2, found) := artist_fallback pr prev_song st
      if found then
        { state := { st2 with loading := false },
          attempts := [.artistFetch (clean_artist_name prev_song.artist)],
          plays := true }
      else
        { state := { st2 with loading := false,
                              status_message := "Could not generate radio." },
          attempts := [.artistFetch (clean_artist_name prev_song.artist)],
          plays := false }

/-- What `handle_smart_navigation` decides to do after resolving the
previous track. -/
inductive NavAction where
  | none
  | startRadio (seed : Song)
  | playSelection
deriving DecidableEq, Repr

/-- The branch structure of `MusicTUI.handle_smart_navigation`: resolve
the previous song (explicit argument, else the player's current song);
return unchanged when there is none; in SEARCH mode start radio seeded
with it; in Radio mode advance the cursor and play when there is room
(`selected_index < len(results) - 1`, Python integer arithmetic, hence the
`Int` comparison), else start radio seeded with it. -/
def smart_nav_decision (st : TUIState) (explicit_prev_song : Option Song) :
    TUIState × NavAction :=
  let prev_song := match explicit_prev_song with
    | some s => some s
    | none => st.player.current_song
  match prev_song with
  | none => (st, .none)
  | some p =>
    match st.mode with
    | .SEARCH => (st, .startRadio p)
    | .Radio =>
        if (st.selected_index : Int) < (st.results.length : Int) - 1 then
          ({ st with selected_index := st.selected_index + 1 }, .playSelection)
        else (st, .startRadio p)

/-- `MusicTUI.handle_smart_navigation`, with the `start_smart_radio` call
executed (the chained `play_selection()` is a background action that does
not change navigation state). -/
def handle_smart_navigation (pr : Providers) (st : TUIState)
    (explicit_prev_song : Option Song) : TUIState :=
  match smart_nav_decision st explicit_prev_song with
  | (st2, .startRadio seed) => (start_smart_radio pr seed st2).state
  | (st2, _) => st2

/-- The foreground part of `MusicTUI.play_selection`: the track it will
resolve and play, `none` when it returns without doing anything (empty
result list or out-of-range cursor). -/
def play_selection_target (st : TUIState) (song_item : Option Song) :
    Option Song :=
  match song_item with
  | some s => some s
  | none =>
      if st.results.isEmpty then none
      else if st.results.length ≤ st.selected_index then none
      else st.results[st.selected_index]?

/-- `MusicTUI.perform_search` after the prompt: `query = none` models a
cancelled prompt (`custom_input` returned `None`), and the empty string is
likewise rejected by `if not query`.  `fetch` is the
`fetch_itunes_results` output for the query. -/
def perform_search (st : TUIState) (query : Option String)
    (fetch : List Song × Option String) : TUIState :=
  match query with
  | none => st
  | some q =>
      if q = "" then st
      else
        let st := { st with search_term := q, loading := true, mode := .SEARCH,
                            status_message := "Searching iTunes..." }
        let (results, err) := fetch
        let st := { st with loading := false }
        match err with
        | some _ => { st with status_message := "Network Error." }
        | none =>
            if results.isEmpty then
              { st with status_message := "No songs found.", results := [] }
            else
              { st with results := results, selected_index := 0,
                        status_message := "Found " ++ toString results.length ++ " songs." }

/-- The `'s'` key handler in `MusicTUI.run`: `self.player.stop()` followed
by `self.perform_search()`. -/
def search_command (st : TUIState) (query : Option String)
    (fetch : List Song × Option String) : TUIState :=
  perform_search { st with player := st.player.stop } query fetch

/-- What `MusicTUI.skip_next` does besides state updates. -/
inductive SkipAction where
  | stopThenSmartNav (prev : Song)
  | playSelection
deriving DecidableEq, Repr

/-- `MusicTUI.skip_next`: with a current song, stop the player and run
smart navigation seeded with it; with none, fall through to
`play_selection()`. -/
def skip_next (pr : Providers) (st : TUIState) : TUIState × SkipAction :=
  match st.player.current_song with
  | some last_known_song =>
      let st2 := { st with player := st.player.stop }
      (handle_smart_navigation pr st2 (some last_known_song),
       .stopThenSmartNav last_known_song)
  | none => (st, .playSelection)

/-- `MusicTUI.skip_prev`: move the cursor back one and play when possible,
else just a status message (the chained `play_selection()` does not change
navigation state). -/
def skip_prev (st : TUIState) : TUIState :=
  if 0 < st.selected_index then { st with selected_index := st.selected_index - 1 }
  else { st with status_message := "Start of playlist." }

/-- The `KEY_UP` handler in `MusicTUI.run`. -/
def cursor_up (st : TUIState) : TUIState :=
  if 0 < st.selected_index then { st with selected_index := st.selected_index - 1 }
  else st

/-- The `KEY_DOWN` handler in `MusicTUI.run`
(`self.selected_index < len(self.results) - 1`, Python integers). -/
def cursor_down (st : TUIState) : TUIState :=
  if (st.selected_index : Int) < (st.results.length : Int) - 1 then
    { st with selected_index := st.selected_index + 1 }
  else st

/-- The navigation operations of the controller, each carrying the
provider outputs it consumes. -/
inductive NavOp where
  | search (query : String) (fetch : List Song × Option String)
  | startRadio (seed : Song) (pr : Providers)
  | smartNav (explicit_prev_song : Option Song) (pr : Providers)
  | skipNext (pr : Providers)
  | skipPrev
  | cursorUp
  | cursorDown

/-- One navigation operation applied to the controller state. -/
def navStep (st : TUIState) : NavOp → TUIState
  | .search q fetch => search_command st (some q) fetch
  | .startRadio seed pr => (start_smart_radio pr seed st).state
  | .smartNav ep pr => handle_smart_navigation pr st ep
  | .skipNext pr => (skip_next pr st).1
  | .skipPrev => skip_prev st
  | .cursorUp => cursor_up st
  | .cursorDown => cursor_down st

/-- The cursor part of the spec's selection invariant that the code
actually maintains: the cursor is in range whenever the result list is
non-empty (`0 ≤ cursor` is inherent in the `Nat` representation;
Python-side the cursor is only ever decremented under a `> 0` guard). -/
def cursorInv (st : TUIState) : Prop :=
  st.results ≠ [] → st.selected_index < st.results.length

/-- A second concrete song (with a resolved identifier) used by
witnesses. -/
def songV : Song :=
  { track := "Digital Love", artist := "Daft Punk", video_id := some "abcdefghijk" }

/-- A concrete idle controller state in SEARCH mode used by witnesses. -/
def stS : TUIState :=
  { player := initPlayer, results := [songA], selected_index := 0,
    search_term := "", status_message := "", loading := false,
    autoplay := true, mode := .SEARCH }

/-- Concrete provider outputs used by witnesses: the mix lookup returns
one song, the artist search returns nothing. -/
def prK : Providers :=
  { mix := fun _ => [songV], search := fun _ => ([], none) }

/-- A concrete state with two results and the cursor on the second entry,
used by counterexamples and witnesses. -/
def stTwo : TUIState :=
  { player := initPlayer.play songA true false, results := [songA, songV],
    selected_index := 1, search_term := "daft", status_message := "",
    loading := false, autoplay := true, mode := .SEARCH }

/-- Python's `str.lower()` (ASCII model, character-wise, kept
kernel-evaluable by mapping over the character list). -/
def pyLower (s : String) : String := ⟨s.data.map Char.toLower⟩

/-- The dedup key of `fetch_itunes_results`:
`key = f"{t.lower()}{a.lower()}"`, the concatenation of the lowercased
title and the lowercased artist (not the pair of the two). -/
def itunesKey (t a : String) : String := pyLower t ++ pyLower a

/-- The parse/dedup loop of `MusicTUI.fetch_itunes_results` over the
extracted `(trackName, artistName)` pairs of the provider response, with
the running `seen` set of keys. -/
def itunes_dedup : List (String × String) → List String → List Song
  | [], _ => []
  | (t, a) :: rest, seen =>
      let key := itunesKey t a
      if key ∈ seen then itunes_dedup rest seen
      else { track := t, artist := a, video_id := none } ::
        itunes_dedup rest (key :: seen)

/-- The success path of `MusicTUI.fetch_itunes_results`: the deduped
`clean_results` for the provider items, in provider order. -/
def fetch_itunes_clean (items : List (String × String)) : List Song :=
  itunes_dedup items []

/-- One pass of the line loop of `fetch_youtube_mix`: a line splits on
`":::"`; lines with fewer than three parts are skipped (this covers both
the `":::" not in line` check and the `len(parts) < 3` check), the seed's
own id is skipped, and ids already seen are skipped. -/
def mix_parse_lines (video_id : String) : List String → List String → List Song
  | [], _ => []
  | line :: rest, seen_ids =>
      match line.splitOn ":::" with
      | vid_id :: title :: uploader :: _ =>
          if vid_id = video_id then mix_parse_lines video_id rest seen_ids
          else if vid_id ∈ seen_ids then mix_parse_lines video_id rest seen_ids
          else { track := title, artist := uploader, video_id := some vid_id } ::
            mix_parse_lines video_id rest (vid_id :: seen_ids)
      | _ => mix_parse_lines video_id rest seen_ids

/-- `MusicTUI.fetch_youtube_mix`: `output = none` models the external
call raising (subprocess failure, yt-dlp unavailable), caught by the
`except` clause that returns `[]`; `some lines` is the decoded,
line-split stdout. -/
def fetch_youtube_mix (video_id : String) (output : Option (List String)) :
    List Song :=
  match output with
  | none => []
  | some lines => mix_parse_lines video_id lines []

/-- Concrete provider outputs whose mix lookup fails and whose artist
search returns the seed's own track first and a different track second,
used by witnesses. -/
def prW : Providers :=
  { mix := fun _ => [], search := fun _ => ([songA, songV], none) }

/-- The index of the first occurrence of `sep` in a character list
(`none` when `sep` does not occur), used to state the spec's
"at the first occurrence" reading of `clean_artist_name`. -/
def firstIdx (sep : List Char) : List Char → Option Nat
  | [] => if sep.isPrefixOf [] then some 0 else none
  | c :: rest =>
      if sep.isPrefixOf (c :: rest) then some 0
      else (firstIdx sep rest).map (fun n => n + 1)

/-- Minimum of two optional indices (`none` is neutral). -/
def optMin : Option Nat → Option Nat → Option Nat
  | none, b => b
  | some a, none => some a
  | some a, some b => some (min a b)

/-- The earliest position in `s` at which any of the collaboration
separators occurs. -/
def minSepIdx (s : List Char) : Option Nat :=
  (seps.map (fun sep => firstIdx sep s)).foldr optMin none

/-- Modelled from the spec's words, for the refinement comparison with
`clean_artist_core`: strip the separators at the first occurrence (cut
the string at the earliest position where any separator occurs) and trim
surrounding whitespace. -/
def clean_spec (s : List Char) : List Char :=
  trimChars (match minSepIdx s with
    | none => s
    | some m => s.take m)

/-- `sep` occurs in `s` starting at position `m`. -/
def OccAt (sep s : List Char) (m : Nat) : Prop := sep <+: s.drop m

end Tuify

open Tuify

theorem pstep_inv {p : PlayerState} (h : PlayerInv p) (e : PEvent) :
    PlayerInv (pstep p e) := by
  cases e with
  | play s ok ie =>
      cases ok <;> cases ie <;>
        simp [pstep, PlayerState.play, PlayerState.stop, PlayerInv]
  | stop => simp [pstep, PlayerState.stop, PlayerInv]
  | exit =>
      unfold pstep processExit PlayerInv
      match hp : p.process with
      | some .running =>
          intro _
          exact h (by simp [hp])
      | some .exited => exact h
      | none => exact h
  | poll =>
      unfold pstep PlayerState.check_status PlayerInv
      match hp : p.process with
      | some .exited => simp
      | some .running => exact h
      | none => exact h

theorem runTrace_inv (es : List PEvent) : PlayerInv (runTrace es) := by
  have aux : ∀ (l : List PEvent) (p : PlayerState), PlayerInv p →
      PlayerInv (l.foldl pstep p) := by
    intro l
    induction l with
    | nil => intro p h; exact h
    | cons e t ih => intro p h; exact ih _ (pstep_inv h e)
  exact aux es initPlayer (by intro h; rfl)

theorem artist_fallback_of_empty (pr : Providers) (p : Song) (st : TUIState)
    (h : (pr.search (clean_artist_name p.artist)).1 = []) :
    artist_fallback pr p st =
      ({ st with status_message :=
          "Falling back to Artist: " ++ clean_artist_name p.artist ++ "..." }, false) := by
  simp [artist_fallback, h]

theorem artist_fallback_of_nonempty (pr : Providers) (p : Song) (st : TUIState)
    (h : (pr.search (clean_artist_name p.artist)).1 ≠ []) :
    artist_fallback pr p st =
      ({ st with status_message := "Falling back to Artist: " ++ clean_artist_name p.artist ++ "...", results := (pr.search (clean_artist_name p.artist)).1, mode := .Radio, search_term := "Artist: " ++ clean_artist_name p.artist, selected_index := scanNext (truncTitle p.track) 0 (pr.search (clean_artist_name p.artist)).1 },
       true) := by
  have hb : ((pr.search (clean_artist_name p.artist)).1).isEmpty = false := by
    simpa [List.isEmpty_iff] using h
  simp [artist_fallback, hb]

theorem start_smart_radio_mix_found (pr : Providers) (prev : Song) (st : TUIState)
    (vid : String) (hv : prev.video_id = some vid) (hm : pr.mix vid ≠ []) :
    start_smart_radio pr prev st =
      { state := { st with loading := false, status_message := "Fetching YouTube Recommendations...", results := pr.mix vid, mode := .Radio, search_term := "Smart Mix", selected_index := 0 },
        attempts := [.mixFetch vid],
        plays := true } := by
  have hmb : (pr.mix vid).isEmpty = false := by simpa [List.isEmpty_iff] using hm
  simp [start_smart_radio, hv, hmb]

theorem start_smart_radio_none_found (pr : Providers) (prev : Song) (st : TUIState)
    (hv : prev.video_id = none)
    (hs : (pr.search (clean_artist_name prev.artist)).1 ≠ []) :
    start_smart_radio pr prev st =
      { state := { st with loading := false, status_message := "Falling back to Artist: " ++ clean_artist_name prev.artist ++ "...", results := (pr.search (clean_artist_name prev.artist)).1, mode := .Radio, search_term := "Artist: " ++ clean_artist_name prev.artist, selected_index := scanNext (truncTitle prev.track) 0 (pr.search (clean_artist_name prev.artist)).1 },
        attempts := [.artistFetch (clean_artist_name prev.artist)],
        plays := true } := by
  simp [start_smart_radio, hv, artist_fallback_of_nonempty pr prev _ hs]

theorem start_smart_radio_none_fail (pr : Providers) (prev : Song) (st : TUIState)
    (hv : prev.video_id = none)
    (hs : (pr.search (clean_artist_name prev.artist)).1 = []) :
    start_smart_radio pr prev st =
      { state := { st with loading := false, status_message := "Could not generate radio." },
        attempts := [.artistFetch (clean_artist_name prev.artist)],
        plays := false } := by
  simp [start_smart_radio, hv, artist_fallback_of_empty pr prev _ hs]

theorem start_smart_radio_mixempty_found (pr : Providers) (prev : Song) (st : TUIState)
    (vid : String) (hv : prev.video_id = some vid) (hm : pr.mix vid = [])
    (hs : (pr.search (clean_artist_name prev.artist)).1 ≠ []) :
    start_smart_radio pr prev st =
      { state := { st with loading := false, status_message := "Falling back to Artist: " ++ clean_artist_name prev.artist ++ "...", results := (pr.search (clean_artist_name prev.artist)).1, mode := .Radio, search_term := "Artist: " ++ clean_artist_name prev.artist, selected_index := scanNext (truncTitle prev.track) 0 (pr.search (clean_artist_name prev.artist)).1 },
        attempts := [.mixFetch vid, .artistFetch (clean_artist_name prev.artist)],
        plays := true } := by
  have hmb : (pr.mix vid).isEmpty = true := by simp [hm]
  simp [start_smart_radio, hv, hmb, artist_fallback_of_nonempty pr prev _ hs]

theorem start_smart_radio_mixempty_fail (pr : Providers) (prev : Song) (st : TUIState)
    (vid : String) (hv : prev.video_id = some vid) (hm : pr.mix vid = [])
    (hs : (pr.search (clean_artist_name prev.artist)).1 = []) :
    start_smart_radio pr prev st =
      { state := { st with loading := false, status_message := "Could not generate radio." },
        attempts := [.mixFetch vid, .artistFetch (clean_artist_name prev.artist)],
        plays := false } := by
  have hmb : (pr.mix vid).isEmpty = true := by simp [hm]
  simp [start_smart_radio, hv, hmb, artist_fallback_of_empty pr prev _ hs]

theorem scanNext_zero_or (last : List Char) (k : Nat) (l : List Song) :
    scanNext last k l = 0 ∨ ∃ i, i < l.length ∧ scanNext last k l = k + i := by
  induction l generalizing k with
  | nil => exact Or.inl rfl
  | cons s rest ih =>
      by_cases hd : truncTitle s.track ≠ last
      · exact Or.inr ⟨0, by simp, by simp [scanNext, hd]⟩
      · rcases ih (k + 1) with h0 | ⟨i, hi, hval⟩
        · exact Or.inl (by simp [scanNext, hd, h0])
        · refine Or.inr ⟨i + 1, by simpa using hi, ?_⟩
          simp [scanNext, hd, hval]
          omega

theorem scanNext_lt (last : List Char) (l : List Song) (hl : l ≠ []) :
    scanNext last 0 l < l.length := by
  have hpos : 0 < l.length := List.length_pos.mpr hl
  rcases scanNext_zero_or last 0 l with h0 | ⟨i, hi, hval⟩
  · omega
  · omega

theorem start_smart_radio_inv (pr : Providers) (seed : Song) (st : TUIState)
    (h : cursorInv st) : cursorInv (start_smart_radio pr seed st).state := by
  rcases hv : seed.video_id with _ | vid
  · by_cases hs : (pr.search (clean_artist_name seed.artist)).1 = []
    · rw [start_smart_radio_none_fail pr seed st hv hs]
      exact h
    · rw [start_smart_radio_none_found pr seed st hv hs]
      intro _
      exact scanNext_lt _ _ hs
  · by_cases hm : pr.mix vid = []
    · by_cases hs : (pr.search (clean_artist_name seed.artist)).1 = []
      · rw [start_smart_radio_mixempty_fail pr seed st vid hv hm hs]
        exact h
      · rw [start_smart_radio_mixempty_found pr seed st vid hv hm hs]
        intro _
        exact scanNext_lt _ _ hs
    · rw [start_smart_radio_mix_found pr seed st vid hv hm]
      intro _
      exact List.length_pos.mpr hm

theorem smart_nav_decision_cases (st : TUIState) (ep : Option Song) :
    smart_nav_decision st ep = (st, .none) ∨
    (∃ p, smart_nav_decision st ep = (st, .startRadio p)) ∨
    (smart_nav_decision st ep =
        ({ st with selected_index := st.selected_index + 1 }, .playSelection) ∧
      st.selected_index + 1 < st.results.length) := by
  have main : ∀ p, (ep = some p ∨ (ep = none ∧ st.player.current_song = some p)) →
      smart_nav_decision st ep =
        (match st.mode with
         | .SEARCH => (st, .startRadio p)
         | .Radio =>
             if (st.selected_index : Int) < (st.results.length : Int) - 1 then
               ({ st with selected_index := st.selected_index + 1 }, .playSelection)
             else (st, .startRadio p)) := by
    intro p hp
    rcases hp with h | ⟨h1, h2⟩
    · subst h; simp [smart_nav_decision]
    · subst h1; simp [smart_nav_decision, h2]
  have modeCases : ∀ p, (ep = some p ∨ (ep = none ∧ st.player.current_song = some p)) →
      (∃ q, smart_nav_decision st ep = (st, .startRadio q)) ∨
      (smart_nav_decision st ep =
          ({ st with selected_index := st.selected_index + 1 }, .playSelection) ∧
        st.selected_index + 1 < st.results.length) := by
    intro p hp
    have key := main p hp
    cases hmode : st.mode
    · rw [hmode] at key
      exact Or.inl ⟨p, key⟩
    · rw [hmode] at key
      by_cases hlt : (st.selected_index : Int) < (st.results.length : Int) - 1
      · rw [if_pos hlt] at key
        exact Or.inr ⟨key, by omega⟩
      · rw [if_neg hlt] at key
        exact Or.inl ⟨p, key⟩
  rcases hep : ep with _ | s
  · rcases hcs : st.player.current_song with _ | p
    · refine Or.inl ?_
      simp [smart_nav_decision, hcs]
    · rcases modeCases p (Or.inr ⟨hep, hcs⟩) with h | h <;> rw [hep] at h
      · exact Or.inr (Or.inl h)
      · exact Or.inr (Or.inr h)
  · rcases modeCases s (Or.inl hep) with h | h <;> rw [hep] at h
    · exact Or.inr (Or.inl h)
    · exact Or.inr (Or.inr h)

theorem handle_smart_navigation_inv (pr : Providers) (st : TUIState)
    (ep : Option Song) (h : cursorInv st) :
    cursorInv (handle_smart_navigation pr st ep) := by
  unfold handle_smart_navigation
  rcases smart_nav_decision_cases st ep with hc | ⟨p, hc⟩ | ⟨hc, hlt⟩ <;> rw [hc]
  · exact h
  · exact start_smart_radio_inv pr p st h
  · intro _
    exact hlt

/-- C2: whenever smart navigation runs with a non-null previous track
`p`: in SEARCH mode it decides to start radio seeded with `p` and leaves
the state (in particular the cursor) unchanged; in Radio mode with
`cursor < len(results) - 1` it increments the cursor and plays the entry
now under the cursor; in Radio mode with the cursor on the last entry it
decides to start radio seeded with `p` instead of stopping. -/
theorem C2_smart_navigation (st : TUIState) (ep : Option Song) (p : Song)
    (hp : ep = some p ∨ (ep = none ∧ st.player.current_song = some p)) :
    (st.mode = .SEARCH → smart_nav_decision st ep = (st, .startRadio p)) ∧
    (st.mode = .Radio →
      (st.selected_index : Int) < (st.results.length : Int) - 1 →
      smart_nav_decision st ep =
        ({ st with selected_index := st.selected_index + 1 }, .playSelection) ∧
      play_selection_target { st with selected_index := st.selected_index + 1 } none =
        st.results[st.selected_index + 1]? ∧
      (st.results[st.selected_index + 1]?).isSome = true) ∧
    (st.mode = .Radio → st.results ≠ [] →
      st.selected_index = st.results.length - 1 →
      smart_nav_decision st ep = (st, .startRadio p)) := by
  have key : smart_nav_decision st ep =
      (match st.mode with
       | .SEARCH => (st, .startRadio p)
       | .Radio =>
           if (st.selected_index : Int) < (st.results.length : Int) - 1 then
             ({ st with selected_index := st.selected_index + 1 }, .playSelection)
           else (st, .startRadio p)) := by
    rcases hp with h | ⟨h1, h2⟩
    · subst h; simp [smart_nav_decision]
    · subst h1; simp [smart_nav_decision, h2]
  refine ⟨?_, ?_, ?_⟩
  · intro hmode
    rw [key, hmode]
  · intro hmode hlt
    have hlt' : st.selected_index + 1 < st.results.length := by omega
    refine ⟨by rw [key, hmode, if_pos hlt], ?_, ?_⟩
    · have hne : ¬(st.results.isEmpty = true) := by
        simp only [List.isEmpty_iff]
        intro hnil
        rw [hnil] at hlt'
        simp at hlt'
      have hnle : ¬(st.results.length ≤ st.selected_index + 1) := by omega
      simp [play_selection_target, hne, hnle]
    · rw [List.getElem?_eq_getElem hlt']
      rfl
  · intro hmode hne hlast
    have hpos : 0 < st.results.length := List.length_pos.mpr hne
    have hnotlt : ¬((st.selected_index : Int) < (st.results.length : Int) - 1) := by
      omega
    rw [key, hmode, if_neg hnotlt]

/-- C2 witness: in SEARCH mode with previous track `songA`, smart
navigation decides to start radio seeded with `songA` and leaves the
state unchanged. -/
theorem C2_smart_navigation_witness :
    Tuify.smart_nav_decision Tuify.stS (some Tuify.songA) =
      (Tuify.stS, .startRadio Tuify.songA) :=
  (C2_smart_navigation Tuify.stS (some Tuify.songA) Tuify.songA (Or.inl rfl)).1 rfl

/-- C3: `start_smart_radio` tries its sources in a strict deterministic
order.  (1) When the seed has a resolved identifier and the
recommendation fetch keyed on it is non-empty, the attempts are exactly
that one fetch (no artist fallback), the result list becomes the fetched
mix, the mode becomes Radio and the cursor 0.  (2) A mix fetch is only
ever attempted on the seed's own identifier, and always first.  (3) The
artist-fallback search is attempted only when the identifier was absent
or the mix came back empty.  (4) When both steps yield nothing it reports
"Could not generate radio.", chains no playback, and leaves the result
list, mode, cursor and player untouched. -/
theorem C3_start_radio_fallback_order (pr : Providers) (prev : Song) (st : TUIState) :
    (∀ vid, prev.video_id = some vid → pr.mix vid ≠ [] →
      (start_smart_radio pr prev st).attempts = [.mixFetch vid] ∧
      (start_smart_radio pr prev st).state.results = pr.mix vid ∧
      (start_smart_radio pr prev st).state.mode = .Radio ∧
      (start_smart_radio pr prev st).state.selected_index = 0 ∧
      (start_smart_radio pr prev st).plays = true) ∧
    (∀ vid, RadioAttempt.mixFetch vid ∈ (start_smart_radio pr prev st).attempts →
      prev.video_id = some vid ∧
      (start_smart_radio pr prev st).attempts.head? = some (.mixFetch vid)) ∧
    (∀ a, RadioAttempt.artistFetch a ∈ (start_smart_radio pr prev st).attempts →
      prev.video_id = none ∨ ∃ vid, prev.video_id = some vid ∧ pr.mix vid = []) ∧
    ((prev.video_id = none ∨ ∃ vid, prev.video_id = some vid ∧ pr.mix vid = []) →
      (pr.search (clean_artist_name prev.artist)).1 = [] →
      (start_smart_radio pr prev st).plays = false ∧
      (start_smart_radio pr prev st).state.status_message = "Could not generate radio." ∧
      (start_smart_radio pr prev st).state.results = st.results ∧
      (start_smart_radio pr prev st).state.mode = st.mode ∧
      (start_smart_radio pr prev st).state.selected_index = st.selected_index ∧
      (start_smart_radio pr prev st).state.player = st.player) := by
  rcases hv : prev.video_id with _ | vid
  · -- no resolved identifier: only the artist fallback can run
    refine ⟨?_, ?_, ?_, ?_⟩
    · intro vid hvid
      exact absurd hvid (by simp)
    · intro vid hmem
      by_cases hs : (pr.search (clean_artist_name prev.artist)).1 = []
      · rw [start_smart_radio_none_fail pr prev st hv hs] at hmem
        simp at hmem
      · rw [start_smart_radio_none_found pr prev st hv hs] at hmem
        simp at hmem
    · intro a _
      exact Or.inl rfl
    · intro _ hs
      rw [start_smart_radio_none_fail pr prev st hv hs]
      simp
  · -- resolved identifier present: the mix fetch runs first
    by_cases hm : pr.mix vid = []
    · refine ⟨?_, ?_, ?_, ?_⟩
      · intro vid' hvid' hne
        obtain rfl := Option.some.inj hvid'
        exact absurd hm hne
      · intro vid' hmem
        by_cases hs : (pr.search (clean_artist_name prev.artist)).1 = []
        · rw [start_smart_radio_mixempty_fail pr prev st vid hv hm hs] at hmem ⊢
          simp at hmem
          simp [hmem]
        · rw [start_smart_radio_mixempty_found pr prev st vid hv hm hs] at hmem ⊢
          simp at hmem
          simp [hmem]
      · intro a _
        exact Or.inr ⟨vid, rfl, hm⟩
      · intro _ hs
        rw [start_smart_radio_mixempty_fail pr prev st vid hv hm hs]
        simp
    · refine ⟨?_, ?_, ?_, ?_⟩
      · intro vid' hvid' _
        obtain rfl := Option.some.inj hvid'
        rw [start_smart_radio_mix_found pr prev st vid hv hm]
        simp
      · intro vid' hmem
        rw [start_smart_radio_mix_found pr prev st vid hv hm] at hmem ⊢
        simp at hmem
        simp [hmem]
      · intro a hmem
        rw [start_smart_radio_mix_found pr prev st vid hv hm] at hmem
        simp at hmem
      · intro hcase _
        rcases hcase with h | ⟨vid', hvid', hm'⟩
        · cases h
        · obtain rfl := Option.some.inj hvid'
          exact absurd hm' hm

/-- C3 witness: for a seed with a resolved identifier whose mix fetch is
non-empty, the only attempt is that mix fetch. -/
theorem C3_start_radio_fallback_order_witness :
    (Tuify.start_smart_radio Tuify.prK Tuify.songV Tuify.stS).attempts =
      [.mixFetch "abcdefghijk"] :=
  ((C3_start_radio_fallback_order Tuify.prK Tuify.songV Tuify.stS).1
    "abcdefghijk" rfl (by simp [Tuify.prK])).1

/-- C10: when skip-next runs with no current track, the player is not
stopped and smart navigation is not invoked; the controller falls through
to playing the currently selected entry of the result list, which plays
the entry under the cursor when one exists and does nothing when the list
is empty. -/
theorem C10_skip_next_no_current (pr : Providers) (st : TUIState)
    (h : st.player.current_song = none) :
    skip_next pr st = (st, .playSelection) ∧
    (st.results = [] → play_selection_target st none = none) ∧
    (st.selected_index < st.results.length →
      play_selection_target st none = st.results[st.selected_index]? ∧
      (st.results[st.selected_index]?).isSome = true) := by
  refine ⟨?_, ?_, ?_⟩
  · simp [skip_next, h]
  · intro hnil
    simp [play_selection_target, hnil]
  · intro hlt
    have hne : ¬(st.results.isEmpty = true) := by
      simp only [List.isEmpty_iff]
      intro hnil
      rw [hnil] at hlt
      simp at hlt
    have hnle : ¬(st.results.length ≤ st.selected_index) := by omega
    constructor
    · simp [play_selection_target, hne, hnle]
    · rw [List.getElem?_eq_getElem hlt]
      rfl

/-- C10 witness: in the concrete idle state (no current song, one result,
cursor 0) skip-next leaves the state alone, decides to play the
selection, and the selection target is the entry under the cursor. -/
theorem C10_skip_next_no_current_witness :
    Tuify.skip_next Tuify.prK Tuify.stS = (Tuify.stS, .playSelection) ∧
    Tuify.play_selection_target Tuify.stS none = some Tuify.songA :=
  ⟨(C10_skip_next_no_current Tuify.prK Tuify.stS rfl).1,
   by
    have h := ((C10_skip_next_no_current Tuify.prK Tuify.stS rfl).2.2
      (by simp [Tuify.stS])).1
    simpa [Tuify.stS] using h⟩

/-- C1: along every event trace, `check_status` (the code behind
`checkLiveness()`) returns true at most once per natural process exit:
(a) it returns false whenever `manually_stopped` (the code's name for
`stopped_explicitly`) is set, (b) false while the process is still
running, (c) false when no process handle is held (never started, already
stopped, or the exit already observed), (d) true on the first poll after a
running owned process exits on its own, and (e) never true again on the
next poll after a poll already returned true for the same exit. -/
theorem C1_check_status_exactly_once (es : List PEvent) :
    ((runTrace es).manually_stopped = true →
        (runTrace es).check_status.2 = false) ∧
    ((runTrace es).process = some .running →
        (runTrace es).check_status.2 = false) ∧
    ((runTrace es).process = none →
        (runTrace es).check_status.2 = false) ∧
    ((runTrace es).process = some .running →
        (processExit (runTrace es)).check_status.2 = true) ∧
    ((runTrace es).check_status.2 = true →
        ((runTrace es).check_status.1).check_status.2 = false) := by
  set p := runTrace es with hp
  refine ⟨?_, ?_, ?_, ?_, ?_⟩
  · intro hm
    unfold PlayerState.check_status
    match hproc : p.process with
    | some .exited => simp [hm]
    | some .running => simp
    | none => simp
  · intro hproc
    simp [PlayerState.check_status, hproc]
  · intro hproc
    simp [PlayerState.check_status, hproc]
  · intro hproc
    have hinv : PlayerInv p := runTrace_inv es
    have hm : p.manually_stopped = false := hinv (by simp [hproc])
    simp [processExit, hproc, PlayerState.check_status, hm]
  · intro htrue
    unfold PlayerState.check_status at htrue ⊢
    match hproc : p.process with
    | some .exited => simp
    | some .running => simp [hproc] at htrue
    | none => simp [hproc] at htrue

/-- C1 witness: after `play()` spawns a process that stays alive, the
process is running, and polling right after it exits on its own returns
true. -/
theorem C1_check_status_exactly_once_witness :
    (processExit (runTrace [.play songA true false])).check_status.2 = true :=
  (C1_check_status_exactly_once [.play songA true false]).2.2.2.1 rfl

/-- C5 counterexample: in a state with two results and the cursor at
index 1, a submitted search whose fetch comes back empty (no error) sets
the result list to `[]` but leaves the cursor at 1 instead of resetting
it to 0; and a search whose fetch errors leaves the old result list in
place instead of replacing it with the (empty) fetch output.  This
refutes "replaces ResultList wholesale ... and resets the cursor to 0 —
including when the search returns an error or an empty list". -/
theorem C5_new_search_counterexample :
    (search_command stTwo (some "query") ([], none)).results = [] ∧
    (search_command stTwo (some "query") ([], none)).selected_index = 1 ∧
    (search_command stTwo (some "query") ([], some "timeout")).results =
      [songA, songV] ∧
    (search_command stTwo (some "query") ([], some "timeout")).selected_index = 1 := by
  refine ⟨rfl, rfl, rfl, rfl⟩

/-- C5 (amended): a submitted (non-empty) search query always stops the
player first and sets mode to SEARCH and the stored search term; when the
fetch succeeds with a non-empty list it replaces the result list and
resets the cursor to 0; when the fetch succeeds empty it sets the result
list to `[]` but leaves the cursor unchanged; when the fetch errors it
leaves both the result list and the cursor unchanged. -/
theorem C5_new_search_amended (st : TUIState) (q : String)
    (fetch : List Song × Option String) (hq : q ≠ "") :
    (search_command st (some q) fetch).mode = .SEARCH ∧
    (search_command st (some q) fetch).player.is_playing = false ∧
    (search_command st (some q) fetch).player.process = none ∧
    (search_command st (some q) fetch).search_term = q ∧
    (fetch.2 = none → fetch.1 ≠ [] →
      (search_command st (some q) fetch).results = fetch.1 ∧
      (search_command st (some q) fetch).selected_index = 0) ∧
    (fetch.2 = none → fetch.1 = [] →
      (search_command st (some q) fetch).results = [] ∧
      (search_command st (some q) fetch).selected_index = st.selected_index) ∧
    (∀ e, fetch.2 = some e →
      (search_command st (some q) fetch).results = st.results ∧
      (search_command st (some q) fetch).selected_index = st.selected_index) := by
  obtain ⟨results, err⟩ := fetch
  rcases err with _ | e
  · by_cases hr : results = []
    · subst hr
      simp [search_command, perform_search, PlayerState.stop, hq]
    · have hrb : results.isEmpty = false := by simpa [List.isEmpty_iff] using hr
      simp [search_command, perform_search, PlayerState.stop, hq, hrb, hr]
  · simp [search_command, perform_search, PlayerState.stop, hq]

/-- C5 witness: a concrete submitted query in the concrete two-result
state ends up in SEARCH mode. -/
theorem C5_new_search_amended_witness :
    (search_command stTwo (some "rock") ([songA], none)).mode = .SEARCH :=
  (C5_new_search_amended stTwo "rock" ([songA], none) (by decide)).1

/-- C4 counterexample: the new-search operation with an empty fetch
result leaves the cursor at its old nonzero value while the result list
becomes empty, refuting "the cursor is 0 whenever ResultList is empty". -/
theorem C4_cursor_invariant_counterexample :
    (navStep stTwo (.search "query" ([], none))).results = [] ∧
    (navStep stTwo (.search "query" ([], none))).selected_index ≠ 0 :=
  ⟨rfl, by decide⟩

/-- C4 (amended): every navigation operation (new search, start radio,
smart navigation, skip-next, skip-previous, cursor move) preserves the
in-range invariant `results ≠ [] → cursor < len(results)` (with
`0 ≤ cursor` inherent in the representation); the cursor is clamped at
the ends, never wrapped (moving down on the last entry and moving up on
the first are no-ops).  When the result list becomes empty the cursor is
not reset to 0 but keeps its previous value. -/
theorem C4_cursor_invariant_amended (st : TUIState) (op : NavOp)
    (h : cursorInv st) :
    cursorInv (navStep st op) ∧
    (st.results ≠ [] → st.selected_index = st.results.length - 1 →
      cursor_down st = st) ∧
    (st.selected_index = 0 → cursor_up st = st) := by
  refine ⟨?_, ?_, ?_⟩
  · cases op with
    | search q fetch =>
        obtain ⟨results, err⟩ := fetch
        by_cases hq : q = ""
        · simp only [navStep, search_command, perform_search, hq, if_pos]
          exact h
        · rcases err with _ | e
          · by_cases hr : results = []
            · subst hr
              simp [navStep, search_command, perform_search, hq, cursorInv]
            · have hrb : results.isEmpty = false := by
                simpa [List.isEmpty_iff] using hr
              simp [navStep, search_command, perform_search, hq, hrb, cursorInv,
                List.length_pos, hr]
          · simp only [navStep, search_command, perform_search, hq, if_neg,
              cursorInv]
            simp
            exact fun hne => h hne
    | startRadio seed pr => exact start_smart_radio_inv pr seed st h
    | smartNav ep pr => exact handle_smart_navigation_inv pr st ep h
    | skipNext pr =>
        rcases hcs : st.player.current_song with _ | last
        · simp only [navStep, skip_next, hcs]
          exact h
        · simp only [navStep, skip_next, hcs]
          exact handle_smart_navigation_inv pr _ (some last) (fun hne => h hne)
    | skipPrev =>
        by_cases h0 : 0 < st.selected_index
        · simp only [navStep, skip_prev, h0, if_pos, cursorInv]
          intro hne
          have := h hne
          omega
        · simp only [navStep, skip_prev, h0, if_neg, cursorInv]
          exact fun hne => h hne
    | cursorUp =>
        by_cases h0 : 0 < st.selected_index
        · simp only [navStep, cursor_up, h0, if_pos, cursorInv]
          intro hne
          have := h hne
          omega
        · simp only [navStep, cursor_up, h0, if_neg]
          exact h
    | cursorDown =>
        by_cases hlt : (st.selected_index : Int) < (st.results.length : Int) - 1
        · simp only [navStep, cursor_down, hlt, if_pos, cursorInv]
          intro _
          omega
        · simp only [navStep, cursor_down, hlt, if_neg]
          exact h
  · intro hne hlast
    have hpos : 0 < st.results.length := List.length_pos.mpr hne
    have hnotlt : ¬((st.selected_index : Int) < (st.results.length : Int) - 1) := by
      omega
    simp [cursor_down, hnotlt]
  · intro h0
    simp [cursor_up, h0]

/-- C4 witness: in the concrete two-result state with the cursor on the
last entry, moving the cursor down is a clamped no-op. -/
theorem C4_cursor_invariant_amended_witness :
    cursor_down stTwo = stTwo :=
  (C4_cursor_invariant_amended stTwo .cursorDown (fun _ => by decide)).2.1
    (by decide) (by decide)

theorem scanNext_all_eq (last : List Char) (k : Nat) (l : List Song)
    (h : ∀ s ∈ l, truncTitle s.track = last) :
    scanNext last k l = 0 := by
  induction l generalizing k with
  | nil => rfl
  | cons s t ih =>
      have hs : ¬(truncTitle s.track ≠ last) :=
        not_not_intro (h s (List.mem_cons_self _ _))
      simp only [scanNext, if_neg hs]
      exact ih (k + 1) (fun x hx => h x (List.mem_cons_of_mem _ hx))

theorem scanNext_first_diff (last : List Char) (k : Nat) (l : List Song)
    (i : Nat) (hi : i < l.length)
    (hd : truncTitle (l.get ⟨i, hi⟩).track ≠ last)
    (hmin : ∀ j, ∀ hj : j < l.length, j < i →
      truncTitle (l.get ⟨j, hj⟩).track = last) :
    scanNext last k l = k + i := by
  induction l generalizing k i with
  | nil => exact absurd hi (by simp)
  | cons s t ih =>
      cases i with
      | zero =>
          have hds : truncTitle s.track ≠ last := hd
          simp only [scanNext, if_pos hds]
          omega
      | succ j =>
          have hs : ¬(truncTitle s.track ≠ last) :=
            not_not_intro (hmin 0 (by simp) (Nat.succ_pos j))
          simp only [scanNext, if_neg hs]
          have hj' : j < t.length := by
            simpa [Nat.succ_lt_succ_iff] using hi
          have := ih (k + 1) j hj' hd
            (fun m hm hmi => hmin (m + 1) (by simpa [Nat.succ_lt_succ_iff] using hm)
              (Nat.succ_lt_succ hmi))
          rw [this]
          omega

/-- C8: whenever the artist-fallback branch of `start_smart_radio`
installs a non-empty result list, the cursor it picks is the index of the
first entry (scanning from 0) whose lowercased title truncated at the
first `'('` differs from the seed's (same truncation), and is 0 when
every entry's truncated title equals the seed's. -/
theorem C8_artist_fallback_cursor (pr : Providers) (prev : Song) (st : TUIState)
    (hfb : prev.video_id = none ∨ ∃ vid, prev.video_id = some vid ∧ pr.mix vid = [])
    (hne : (pr.search (clean_artist_name prev.artist)).1 ≠ []) :
    ((∀ s ∈ (pr.search (clean_artist_name prev.artist)).1,
        truncTitle s.track = truncTitle prev.track) →
      (start_smart_radio pr prev st).state.selected_index = 0) ∧
    (∀ i, ∀ hi : i < ((pr.search (clean_artist_name prev.artist)).1).length,
      truncTitle (((pr.search (clean_artist_name prev.artist)).1).get ⟨i, hi⟩).track ≠
        truncTitle prev.track →
      (∀ j, ∀ hj : j < ((pr.search (clean_artist_name prev.artist)).1).length, j < i →
        truncTitle (((pr.search (clean_artist_name prev.artist)).1).get ⟨j, hj⟩).track =
          truncTitle prev.track) →
      (start_smart_radio pr prev st).state.selected_index = i) := by
  have hsel : (start_smart_radio pr prev st).state.selected_index =
      scanNext (truncTitle prev.track) 0 ((pr.search (clean_artist_name prev.artist)).1) := by
    rcases hfb with hv | ⟨vid, hv, hm⟩
    · rw [start_smart_radio_none_found pr prev st hv hne]
    · rw [start_smart_radio_mixempty_found pr prev st vid hv hm hne]
  constructor
  · intro hall
    rw [hsel]
    exact scanNext_all_eq _ 0 _ hall
  · intro i hi hd hmin
    rw [hsel]
    simpa using scanNext_first_diff (truncTitle prev.track) 0 _ i hi hd hmin

/-- C8 witness: with the seed's own track first and a different track
second in the fallback list, the chosen cursor is 1. -/
theorem C8_artist_fallback_cursor_witness :
    (start_smart_radio prW songA stS).state.selected_index = 1 :=
  (C8_artist_fallback_cursor prW songA stS (Or.inl rfl) (by decide)).2 1
    (by decide) (by decide)
    (fun j hj hji => by
      have hj0 : j = 0 := by omega
      subst hj0
      rfl)

theorem occAt_succ (sep : List Char) (c : Char) (rest : List Char) (j : Nat) :
    OccAt sep (c :: rest) (j + 1) ↔ OccAt sep rest j := Iff.rfl

theorem firstIdx_some_occ {sep s : List Char} {m : Nat}
    (h : firstIdx sep s = some m) : OccAt sep s m := by
  induction s generalizing m with
  | nil =>
      simp only [firstIdx] at h
      split at h
      · obtain rfl := Option.some.inj h
        exact List.isPrefixOf_iff_prefix.mp (by assumption)
      · cases h
  | cons c rest ih =>
      simp only [firstIdx] at h
      split at h
      · obtain rfl := Option.some.inj h
        exact List.isPrefixOf_iff_prefix.mp (by assumption)
      · obtain ⟨n, hn, hm⟩ := Option.map_eq_some'.mp h
        subst hm
        exact (occAt_succ sep c rest n).mpr (ih hn)

theorem firstIdx_some_min {sep s : List Char} {m : Nat}
    (h : firstIdx sep s = some m) : ∀ j < m, ¬ OccAt sep s j := by
  induction s generalizing m with
  | nil =>
      simp only [firstIdx] at h
      split at h
      · obtain rfl := Option.some.inj h
        intro j hj
        omega
      · cases h
  | cons c rest ih =>
      simp only [firstIdx] at h
      split at h
      · obtain rfl := Option.some.inj h
        intro j hj
        omega
      · obtain ⟨n, hn, hm⟩ := Option.map_eq_some'.mp h
        subst hm
        intro j hj
        cases j with
        | zero =>
            intro hocc
            exact absurd (List.isPrefixOf_iff_prefix.mpr hocc) (by assumption)
        | succ j' => exact ih hn j' (by omega)

theorem firstIdx_none_not_occ {sep s : List Char}
    (h : firstIdx sep s = none) : ∀ j, ¬ OccAt sep s j := by
  induction s with
  | nil =>
      simp only [firstIdx] at h
      split at h
      · cases h
      · intro j hocc
        have hocc' : sep <+: List.drop j ([] : List Char) := hocc
        rw [List.drop_nil] at hocc'
        exact absurd (List.isPrefixOf_iff_prefix.mpr hocc') (by assumption)
  | cons c rest ih =>
      simp only [firstIdx] at h
      split at h
      · cases h
      · have hrest : firstIdx sep rest = none := Option.map_eq_none'.mp h
        intro j
        cases j with
        | zero =>
            intro hocc
            exact absurd (List.isPrefixOf_iff_prefix.mpr hocc) (by assumption)
        | succ j' => exact ih hrest j'

theorem firstIdx_le_of_occ {sep s : List Char} {j : Nat} (h : OccAt sep s j) :
    ∃ m, firstIdx sep s = some m ∧ m ≤ j := by
  rcases hf : firstIdx sep s with _ | m
  · exact absurd h (firstIdx_none_not_occ hf j)
  · refine ⟨m, rfl, ?_⟩
    by_contra hlt
    exact firstIdx_some_min hf j (by omega) h

theorem firstIdx_eq_of {sep t : List Char} {m : Nat} (hocc : OccAt sep t m)
    (hmin : ∀ j < m, ¬ OccAt sep t j) : firstIdx sep t = some m := by
  obtain ⟨n, hf, hle⟩ := firstIdx_le_of_occ hocc
  rcases Nat.lt_or_ge n m with hlt | hge
  · exact absurd (firstIdx_some_occ hf) (hmin n hlt)
  · have hnm : n = m := by omega
    rw [hf, hnm]

theorem cutFirst_of_some {sep s : List Char} {m : Nat}
    (h : firstIdx sep s = some m) : cutFirst sep s = s.take m := by
  induction s generalizing m with
  | nil =>
      simp only [firstIdx] at h
      split at h
      · obtain rfl := Option.some.inj h
        rfl
      · cases h
  | cons c rest ih =>
      simp only [firstIdx] at h
      simp only [cutFirst]
      split at h
      · obtain rfl := Option.some.inj h
        rw [if_pos (by assumption)]
        rfl
      · obtain ⟨n, hn, hm⟩ := Option.map_eq_some'.mp h
        subst hm
        rw [if_neg (by assumption), List.take_succ_cons, ih hn]

theorem cutFirst_of_none {sep s : List Char}
    (h : firstIdx sep s = none) : cutFirst sep s = s := by
  induction s with
  | nil => rfl
  | cons c rest ih =>
      simp only [firstIdx] at h
      split at h
      · cases h
      · have hrest : firstIdx sep rest = none := Option.map_eq_none'.mp h
        simp only [cutFirst]
        rw [if_neg (by assumption), ih hrest]

theorem hasSubl_iff {sep s : List Char} :
    hasSubl sep s = true ↔ (firstIdx sep s).isSome = true := by
  induction s with
  | nil =>
      simp only [hasSubl, firstIdx]
      cases sep <;> simp [List.isPrefixOf]
  | cons c rest ih =>
      simp only [hasSubl, firstIdx]
      cases hp : sep.isPrefixOf (c :: rest) <;> simp [hp, ih]

theorem occAt_bound {sep s : List Char} {m : Nat} (hsep : sep ≠ [])
    (h : OccAt sep s m) : m + sep.length ≤ s.length := by
  have hlen : sep.length ≤ (s.drop m).length := h.length_le
  have hdl : (s.drop m).length = s.length - m := List.length_drop m s
  have hpos : 0 < sep.length := List.length_pos.mpr hsep
  omega

theorem occAt_getElem {sep s : List Char} {m : Nat} (h : OccAt sep s m)
    {i : Nat} (hi : i < sep.length) : s[m + i]? = sep[i]? := by
  obtain ⟨r, hr⟩ := h
  rw [← List.getElem?_drop s m i, ← hr, List.getElem?_append, if_pos hi]

theorem occAt_take {sep s : List Char} {k p : Nat} (hsep : sep ≠ [])
    (h : OccAt sep (s.take k) p) : OccAt sep s p ∧ p + sep.length ≤ k := by
  have h' : sep <+: (s.drop p).take (k - p) := by
    have h2 : sep <+: (s.take k).drop p := h
    rwa [List.drop_take k p s] at h2
  obtain ⟨h1, h2⟩ := List.prefix_take_iff.mp h'
  have hpos : 0 < sep.length := List.length_pos.mpr hsep
  exact ⟨h1, by omega⟩

theorem occAt_take_of {sep s : List Char} {k p : Nat}
    (h : OccAt sep s p) (hk : p + sep.length ≤ k) :
    OccAt sep (s.take k) p := by
  show sep <+: (s.take k).drop p
  rw [List.drop_take k p s]
  exact List.prefix_take_iff.mpr ⟨h, by omega⟩

theorem itunes_dedup_key_fresh (items : List (String × String))
    (seen : List String) :
    ∀ s ∈ itunes_dedup items seen, itunesKey s.track s.artist ∉ seen := by
  induction items generalizing seen with
  | nil => simp [itunes_dedup]
  | cons p rest ih =>
      obtain ⟨t, a⟩ := p
      by_cases hk : itunesKey t a ∈ seen
      · simpa [itunes_dedup, hk] using ih seen
      · intro s hs
        simp only [itunes_dedup, if_neg hk, List.mem_cons] at hs
        rcases hs with rfl | hs
        · exact hk
        · have := ih (itunesKey t a :: seen) s hs
          intro hmem
          exact this (List.mem_cons_of_mem _ hmem)

theorem itunes_dedup_pairwise (items : List (String × String))
    (seen : List String) :
    (itunes_dedup items seen).Pairwise
      (fun x y => itunesKey x.track x.artist ≠ itunesKey y.track y.artist) := by
  induction items generalizing seen with
  | nil => simp [itunes_dedup]
  | cons p rest ih =>
      obtain ⟨t, a⟩ := p
      by_cases hk : itunesKey t a ∈ seen
      · simpa [itunes_dedup, hk] using ih seen
      · simp only [itunes_dedup, if_neg hk]
        refine List.Pairwise.cons ?_ (ih _)
        intro s hs heq
        have := itunes_dedup_key_fresh rest (itunesKey t a :: seen) s hs
        simp only [heq] at this
        exact this (List.mem_cons_self _ _)

theorem itunes_dedup_sublist (items : List (String × String))
    (seen : List String) :
    List.Sublist (itunes_dedup items seen)
      (items.map (fun p => { track := p.1, artist := p.2, video_id := none })) := by
  induction items generalizing seen with
  | nil => simp [itunes_dedup]
  | cons p rest ih =>
      obtain ⟨t, a⟩ := p
      by_cases hk : itunesKey t a ∈ seen
      · simp only [itunes_dedup, if_pos hk, List.map_cons]
        exact (ih seen).cons _
      · simp only [itunes_dedup, if_neg hk, List.map_cons]
        exact (ih _).cons₂ _

theorem itunes_dedup_complete (pre post : List (String × String))
    (t a : String) (seen : List String)
    (hpre : ∀ p ∈ pre, itunesKey p.1 p.2 ≠ itunesKey t a)
    (hseen : itunesKey t a ∉ seen) :
    ({ track := t, artist := a, video_id := none } : Song) ∈
      itunes_dedup (pre ++ (t, a) :: post) seen := by
  induction pre generalizing seen with
  | nil =>
      simp only [List.nil_append, itunes_dedup, if_neg hseen]
      exact List.mem_cons_self _ _
  | cons p pre' ih =>
      obtain ⟨t', a'⟩ := p
      have hne : itunesKey t' a' ≠ itunesKey t a :=
        hpre (t', a') (List.mem_cons_self _ _)
      have hpre' : ∀ p ∈ pre', itunesKey p.1 p.2 ≠ itunesKey t a :=
        fun p hp => hpre p (List.mem_cons_of_mem _ hp)
      by_cases hk : itunesKey t' a' ∈ seen
      · simp only [List.cons_append, itunes_dedup, if_pos hk]
        exact ih seen hpre' hseen
      · simp only [List.cons_append, itunes_dedup, if_neg hk]
        refine List.mem_cons_of_mem _ (ih _ hpre' ?_)
        intro hmem
        rcases List.mem_cons.mp hmem with h | h
        · exact hne h.symm
        · exact hseen h

/-- C6 counterexample: the dedup key is the concatenation
`t.lower() + a.lower()`, not the pair, so the provider items
`("ab", "")` and `("a", "b")` collide: the second has a (lowercased)
(title, artist) pair different from the first's, yet it does not appear
in the output, refuting the claim's "every input entry whose pair differs
from all earlier entries' pairs appears in the output". -/
theorem C6_dedup_counterexample :
    ¬(pyLower "a" = pyLower "ab" ∧ pyLower "b" = pyLower "") ∧
    ({ track := "a", artist := "b", video_id := none } : Song) ∉
      fetch_itunes_clean [("ab", ""), ("a", "b")] := by
  constructor
  · intro h
    exact absurd h.1 (by decide)
  · decide

/-- C6 (amended): the metadata-search dedup returns the first occurrence
of each distinct concatenated key `title.lower() + artist.lower()`, in
provider order: no two output entries share that concatenated key (hence
also no two share the same case-insensitive (title, artist) pair), the
output is a sublist of the input (provider order preserved), and every
input entry whose concatenated key differs from all earlier entries' keys
appears in the output. -/
theorem C6_dedup_amended (items : List (String × String)) :
    (fetch_itunes_clean items).Pairwise
      (fun x y => itunesKey x.track x.artist ≠ itunesKey y.track y.artist) ∧
    (fetch_itunes_clean items).Pairwise
      (fun x y => ¬(pyLower x.track = pyLower y.track ∧
        pyLower x.artist = pyLower y.artist)) ∧
    List.Sublist (fetch_itunes_clean items)
      (items.map (fun p => { track := p.1, artist := p.2, video_id := none })) ∧
    (∀ pre t a post, items = pre ++ (t, a) :: post →
      (∀ p ∈ pre, itunesKey p.1 p.2 ≠ itunesKey t a) →
      ({ track := t, artist := a, video_id := none } : Song) ∈
        fetch_itunes_clean items) := by
  refine ⟨itunes_dedup_pairwise items [], ?_, itunes_dedup_sublist items [], ?_⟩
  · refine (itunes_dedup_pairwise items []).imp ?_
    intro x y hk hpair
    exact hk (by rw [itunesKey, itunesKey, hpair.1, hpair.2])
  · intro pre t a post hsplit hpre
    rw [hsplit]
    exact itunes_dedup_complete pre post t a [] hpre (by simp)

/-- C6 witness: an input entry whose concatenated key is fresh appears in
the output. -/
theorem C6_dedup_amended_witness :
    ({ track := "a", artist := "b", video_id := none } : Song) ∈
      fetch_itunes_clean [("x", "y"), ("a", "b")] :=
  (C6_dedup_amended [("x", "y"), ("a", "b")]).2.2.2 [("x", "y")] "a" "b" []
    rfl (by decide)

theorem mix_parse_mem (video_id : String) (lines seen : List String) :
    ∀ s ∈ mix_parse_lines video_id lines seen,
      ∃ v, s.video_id = some v ∧ v ≠ video_id ∧ v ∉ seen := by
  induction lines generalizing seen with
  | nil => simp [mix_parse_lines]
  | cons line rest ih =>
      intro s hs
      simp only [mix_parse_lines] at hs
      split at hs
      · split at hs
        · exact ih seen s hs
        · split at hs
          · exact ih seen s hs
          · rcases List.mem_cons.mp hs with rfl | hs'
            · exact ⟨_, rfl, by assumption, by assumption⟩
            · obtain ⟨v, hv1, hv2, hv3⟩ := ih _ s hs'
              exact ⟨v, hv1, hv2, fun hm => hv3 (List.mem_cons_of_mem _ hm)⟩
      · exact ih seen s hs

theorem mix_parse_pairwise (video_id : String) (lines seen : List String) :
    (mix_parse_lines video_id lines seen).Pairwise
      (fun x y => x.video_id ≠ y.video_id) := by
  induction lines generalizing seen with
  | nil => simp [mix_parse_lines]
  | cons line rest ih =>
      simp only [mix_parse_lines]
      split
      · split
        · exact ih seen
        · split
          · exact ih seen
          · refine List.Pairwise.cons ?_ (ih _)
            intro s hs heq
            obtain ⟨v, hv1, _, hv3⟩ := mix_parse_mem video_id rest _ s hs
            rw [hv1] at heq
            obtain rfl := Option.some.inj heq
            exact hv3 (List.mem_cons_self _ _)
      · exact ih seen

/-- C9: the recommendation adapter never returns the seed itself (no
entry's identifier equals the seed identifier), returns no two entries
with the same identifier, every entry carries an identifier, and returns
`[]` whenever the external call raises (modelled by `output = none`). -/
theorem C9_youtube_mix (video_id : String) (output : Option (List String)) :
    (∀ s ∈ fetch_youtube_mix video_id output, s.video_id ≠ some video_id) ∧
    (fetch_youtube_mix video_id output).Pairwise
      (fun x y => x.video_id ≠ y.video_id) ∧
    (∀ s ∈ fetch_youtube_mix video_id output, ∃ v, s.video_id = some v) ∧
    (output = none → fetch_youtube_mix video_id output = []) := by
  rcases output with _ | lines
  · refine ⟨by simp [fetch_youtube_mix], by simp [fetch_youtube_mix], ?_, fun _ => rfl⟩
    simp [fetch_youtube_mix]
  · refine ⟨?_, mix_parse_pairwise video_id lines [], ?_, by simp⟩
    · intro s hs heq
      obtain ⟨v, hv1, hv2, _⟩ := mix_parse_mem video_id lines [] s hs
      rw [hv1] at heq
      exact hv2 (by injection heq)
    · intro s hs
      obtain ⟨v, hv1, _, _⟩ := mix_parse_mem video_id lines [] s hs
      exact ⟨v, hv1⟩

/-- C9 witness: a failing external call yields the empty list, and a
concrete two-line output (seed itself plus one fresh id) yields one
entry, not the seed. -/
theorem C9_youtube_mix_witness :
    fetch_youtube_mix "seedid" none = [] ∧
    (∀ s ∈ fetch_youtube_mix "seedid"
        (some ["seedid:::T0:::U0", "other01:::T1:::U1"]),
      s.video_id ≠ some "seedid") :=
  ⟨(C9_youtube_mix "seedid" none).2.2.2 rfl,
   (C9_youtube_mix "seedid" (some ["seedid:::T0:::U0", "other01:::T1:::U1"])).1⟩

theorem foldr_optMin_none {L : List (Option Nat)}
    (h : L.foldr optMin none = none) : ∀ o ∈ L, o = none := by
  induction L with
  | nil => simp
  | cons o L' ih =>
      simp only [List.foldr_cons] at h
      rcases o with _ | a
      · intro o' ho'
        rcases List.mem_cons.mp ho' with rfl | hmem
        · rfl
        · exact ih (by simpa [optMin] using h) o' hmem
      · rcases hr : L'.foldr optMin none with _ | b <;> rw [hr] at h <;>
          simp [optMin] at h

theorem foldr_optMin_some {L : List (Option Nat)} {M : Nat}
    (h : L.foldr optMin none = some M) :
    some M ∈ L ∧ ∀ o ∈ L, ∀ m, o = some m → M ≤ m := by
  induction L generalizing M with
  | nil => cases h
  | cons o L' ih =>
      simp only [List.foldr_cons] at h
      rcases o with _ | a
      · have h' : L'.foldr optMin none = some M := by simpa [optMin] using h
        obtain ⟨hmem, hbd⟩ := ih h'
        refine ⟨List.mem_cons_of_mem _ hmem, ?_⟩
        intro o' ho' m hom
        rcases List.mem_cons.mp ho' with rfl | hmem'
        · cases hom
        · exact hbd o' hmem' m hom
      · rcases hr : L'.foldr optMin none with _ | b <;> rw [hr] at h
        · have ha : a = M := by simpa [optMin] using h
          subst ha
          refine ⟨List.mem_cons_self _ _, ?_⟩
          intro o' ho' m hom
          rcases List.mem_cons.mp ho' with rfl | hmem'
          · obtain rfl := Option.some.inj hom
            exact Nat.le_refl _
          · have : o' = none := foldr_optMin_none hr o' hmem'
            rw [this] at hom
            cases hom
        · have hM : min a b = M := by simpa [optMin] using h
          obtain ⟨hmemb, hbdb⟩ := ih hr
          constructor
          · rcases Nat.le_total a b with hab | hba
            · have : M = a := by omega
              subst this
              exact List.mem_cons_self _ _
            · have : M = b := by omega
              subst this
              exact List.mem_cons_of_mem _ hmemb
          · intro o' ho' m hom
            rcases List.mem_cons.mp ho' with rfl | hmem'
            · obtain rfl := Option.some.inj hom
              omega
            · have hbm : b ≤ m := hbdb o' hmem' m hom
              omega

theorem minSepIdx_spec_some {s : List Char} {M : Nat}
    (h : minSepIdx s = some M) :
    (∃ σ, σ ∈ seps ∧ firstIdx σ s = some M) ∧
    (∀ τ ∈ seps, ∀ j, OccAt τ s j → M ≤ j) := by
  obtain ⟨hmem, hbd⟩ := foldr_optMin_some h
  constructor
  · obtain ⟨σ, hσ, hfσ⟩ := List.mem_map.mp hmem
    exact ⟨σ, hσ, hfσ⟩
  · intro τ hτ j hocc
    obtain ⟨m, hf, hle⟩ := firstIdx_le_of_occ hocc
    have hMm : M ≤ m :=
      hbd (firstIdx τ s) (List.mem_map_of_mem _ hτ) m hf
    omega

theorem minSepIdx_spec_none {s : List Char} (h : minSepIdx s = none) :
    ∀ τ ∈ seps, ∀ j, ¬ OccAt τ s j := by
  intro τ hτ j hocc
  have hn : firstIdx τ s = none :=
    foldr_optMin_none h _ (List.mem_map_of_mem _ hτ)
  exact firstIdx_none_not_occ hn j hocc

theorem seps_ne_nil : ∀ sep ∈ seps, sep ≠ [] := by decide

theorem seps_overlap : ∀ σ ∈ seps, ∀ τ ∈ seps, σ ≠ τ → ∀ d < σ.length,
    ∃ i < τ.length, d + i < σ.length ∧ τ[i]? ≠ σ[d + i]? := by decide

theorem occAt_conflict {σ τ : List Char} (hσ : σ ∈ seps) (hτ : τ ∈ seps)
    (hne : σ ≠ τ) {s : List Char} {M p : Nat} (hoσ : OccAt σ s M)
    (hoτ : OccAt τ s p) (h1 : M ≤ p) (h2 : p < M + σ.length) : False := by
  obtain ⟨i, hi, hdi, hneq⟩ := seps_overlap σ hσ τ hτ hne (p - M) (by omega)
  apply hneq
  have e1 : s[p + i]? = τ[i]? := occAt_getElem hoτ hi
  have e2 : s[M + (p - M + i)]? = σ[p - M + i]? := occAt_getElem hoσ hdi
  have e3 : M + (p - M + i) = p + i := by omega
  rw [e3] at e2
  rw [← e1]
  exact e2

theorem sepStep_fix {s : List Char} {M : Nat}
    (hminall : ∀ τ ∈ seps, ∀ j, OccAt τ s j → M ≤ j)
    {τ : List Char} (hτ : τ ∈ seps) :
    sepStep (s.take M) τ = s.take M := by
  have hτne : τ ≠ [] := seps_ne_nil τ hτ
  have hτpos : 0 < τ.length := List.length_pos.mpr hτne
  have hno : ∀ p, ¬ OccAt τ (s.take M) p := by
    intro p hp
    obtain ⟨hocc, hbound⟩ := occAt_take hτne hp
    have := hminall τ hτ p hocc
    omega
  have hhs : hasSubl τ (s.take M) = false := by
    rcases hh : hasSubl τ (s.take M)
    · rfl
    · exfalso
      have hsome := hasSubl_iff.mp hh
      rcases hf : firstIdx τ (s.take M) with _ | m
      · rw [hf] at hsome; cases hsome
      · exact hno m (firstIdx_some_occ hf)
  simp [sepStep, hhs]

theorem sepStep_inv {s : List Char} {M : Nat} {σ : List Char} (hσ : σ ∈ seps)
    (hoσ : OccAt σ s M)
    (hminall : ∀ τ ∈ seps, ∀ j, OccAt τ s j → M ≤ j)
    (k : Nat) (hkM : M + σ.length ≤ k)
    {τ : List Char} (hτ : τ ∈ seps) :
    ∃ k2, sepStep (s.take k) τ = s.take k2 ∧ k2 ≤ k ∧
      (k2 = M ∨ M + σ.length ≤ k2) := by
  have hτne : τ ≠ [] := seps_ne_nil τ hτ
  have hτpos : 0 < τ.length := List.length_pos.mpr hτne
  rcases hh : hasSubl τ (s.take k)
  · exact ⟨k, by simp [sepStep, hh], Nat.le_refl _, Or.inr hkM⟩
  · have hsome := hasSubl_iff.mp hh
    rcases hf : firstIdx τ (s.take k) with _ | p
    · rw [hf] at hsome; cases hsome
    · have hoccp := firstIdx_some_occ hf
      obtain ⟨hoccs, hbound⟩ := occAt_take hτne hoccp
      have hpk : p ≤ k := by omega
      have hcut : cutFirst τ (s.take k) = s.take p := by
        rw [cutFirst_of_some hf, List.take_take p k s, Nat.min_eq_left hpk]
      refine ⟨p, ?_, hpk, ?_⟩
      · simp [sepStep, hh, hcut]
      · have hMp : M ≤ p := hminall τ hτ p hoccs
        rcases Nat.eq_or_lt_of_le hMp with heq | hlt
        · exact Or.inl heq.symm
        · refine Or.inr ?_
          by_contra hcon
          have h2 : p < M + σ.length := by omega
          by_cases hστ : σ = τ
          · subst hστ
            have hoccM : OccAt σ (s.take k) M := occAt_take_of hoσ hkM
            exact firstIdx_some_min hf M hlt hoccM
          · exact occAt_conflict hσ hτ hστ hoσ hoccs hMp h2

theorem sepStep_sigma {s : List Char} {M : Nat} {σ : List Char} (hσ : σ ∈ seps)
    (hoσ : OccAt σ s M)
    (hminall : ∀ τ ∈ seps, ∀ j, OccAt τ s j → M ≤ j)
    (k : Nat) (hkM : M + σ.length ≤ k) :
    sepStep (s.take k) σ = s.take M := by
  have hσne : σ ≠ [] := seps_ne_nil σ hσ
  have hoccM : OccAt σ (s.take k) M := occAt_take_of hoσ hkM
  have hmin' : ∀ j < M, ¬ OccAt σ (s.take k) j := by
    intro j hj hocc
    obtain ⟨hs, _⟩ := occAt_take hσne hocc
    have := hminall σ hσ j hs
    omega
  have hf : firstIdx σ (s.take k) = some M := firstIdx_eq_of hoccM hmin'
  have hh : hasSubl σ (s.take k) = true :=
    hasSubl_iff.mpr (by rw [hf]; rfl)
  have hMk : M ≤ k := by omega
  simp [sepStep, hh, cutFirst_of_some hf, List.take_take M k s,
    Nat.min_eq_left hMk]

theorem foldl_sepStep_fix {s : List Char} {M : Nat}
    (hminall : ∀ τ ∈ seps, ∀ j, OccAt τ s j → M ≤ j)
    (L : List (List Char)) (hL : ∀ τ ∈ L, τ ∈ seps) :
    L.foldl sepStep (s.take M) = s.take M := by
  induction L with
  | nil => rfl
  | cons τ L' ih =>
      rw [List.foldl_cons, sepStep_fix hminall (hL τ (List.mem_cons_self _ _))]
      exact ih (fun x hx => hL x (List.mem_cons_of_mem _ hx))

theorem foldl_sepStep_inv {s : List Char} {M : Nat} {σ : List Char}
    (hσ : σ ∈ seps) (hoσ : OccAt σ s M)
    (hminall : ∀ τ ∈ seps, ∀ j, OccAt τ s j → M ≤ j)
    (L : List (List Char)) (hL : ∀ τ ∈ L, τ ∈ seps)
    (k : Nat) (hinv : k = M ∨ M + σ.length ≤ k) :
    ∃ k2, L.foldl sepStep (s.take k) = s.take k2 ∧
      (k2 = M ∨ M + σ.length ≤ k2) := by
  induction L generalizing k with
  | nil => exact ⟨k, rfl, hinv⟩
  | cons τ L' ih =>
      rcases hinv with rfl | hge
      · rw [List.foldl_cons, sepStep_fix hminall (hL τ (List.mem_cons_self _ _))]
        exact ih (fun x hx => hL x (List.mem_cons_of_mem _ hx)) _ (Or.inl rfl)
      · obtain ⟨k2, he, hk2le, hinv2⟩ :=
          sepStep_inv hσ hoσ hminall k hge (hL τ (List.mem_cons_self _ _))
        rw [List.foldl_cons, he]
        exact ih (fun x hx => hL x (List.mem_cons_of_mem _ hx)) k2 hinv2

theorem foldl_sepStep_id {s : List Char}
    (hnone : ∀ τ ∈ seps, ∀ j, ¬ OccAt τ s j)
    (L : List (List Char)) (hL : ∀ τ ∈ L, τ ∈ seps) :
    L.foldl sepStep s = s := by
  induction L with
  | nil => rfl
  | cons τ L' ih =>
      have hτ := hL τ (List.mem_cons_self _ _)
      have hhs : hasSubl τ s = false := by
        rcases hh : hasSubl τ s
        · rfl
        · exfalso
          have hsome := hasSubl_iff.mp hh
          rcases hf : firstIdx τ s with _ | m
          · rw [hf] at hsome; cases hsome
          · exact hnone τ hτ m (firstIdx_some_occ hf)
      rw [List.foldl_cons, show sepStep s τ = s from by simp [sepStep, hhs]]
      exact ih (fun x hx => hL x (List.mem_cons_of_mem _ hx))

theorem clean_core_eq_spec (s : List Char) :
    clean_artist_core s = clean_spec s := by
  unfold clean_artist_core clean_spec
  rcases hmin : minSepIdx s with _ | M
  · rw [foldl_sepStep_id (minSepIdx_spec_none hmin) seps (fun _ hτ => hτ)]
  · obtain ⟨⟨σ, hσ, hfσ⟩, hminall⟩ := minSepIdx_spec_some hmin
    have hoσ : OccAt σ s M := firstIdx_some_occ hfσ
    have hσne : σ ≠ [] := seps_ne_nil σ hσ
    have hlen : M + σ.length ≤ s.length := occAt_bound hσne hoσ
    obtain ⟨P, Q, hPQ⟩ := List.append_of_mem hσ
    have hmemP : ∀ τ ∈ P, τ ∈ seps := by
      intro τ hτ
      rw [hPQ]
      exact List.mem_append_left _ hτ
    have hmemQ : ∀ τ ∈ Q, τ ∈ seps := by
      intro τ hτ
      rw [hPQ]
      exact List.mem_append_right _ (List.mem_cons_of_mem _ hτ)
    have hstart : seps.foldl sepStep s = seps.foldl sepStep (s.take s.length) := by
      rw [List.take_length]
    rw [hstart, hPQ, List.foldl_append]
    obtain ⟨k1, he1, hinv1⟩ :=
      foldl_sepStep_inv hσ hoσ hminall P hmemP s.length (Or.inr hlen)
    rw [he1, List.foldl_cons]
    have hσstep : sepStep (s.take k1) σ = s.take M := by
      rcases hinv1 with rfl | hge
      · exact sepStep_fix hminall hσ
      · exact sepStep_sigma hσ hoσ hminall k1 hge
    rw [hσstep, foldl_sepStep_fix hminall Q hmemQ]

/-- C7: for every input character string, `clean_artist_name` returns the
string obtained by cutting at the first occurrence of any of the
collaboration separators `&`, `feat.`, `Feat.`, `ft.`, `,`, `" x "` and
trimming surrounding whitespace (the sequential per-separator splitting
of the code coincides with cutting at the global first occurrence for
this separator set); in particular, cleaning "Daft Punk feat. Pharrell"
yields exactly "Daft Punk". -/
theorem C7_clean_artist_name (s : List Char) :
    clean_artist_core s = clean_spec s ∧
    clean_artist_name "Daft Punk feat. Pharrell" = "Daft Punk" :=
  ⟨clean_core_eq_spec s, by decide⟩
